import Mathlib

/-!
Shallow embedding of the `rsrt` path tracer (src/vec3.rs, src/hit.rs,
src/material.rs, src/main.rs).  `f32` is idealised as `ℝ`; the `f32::INFINITY`
upper bound threaded through `hit` is modelled by `WithTop ℝ`.  The process-wide
random source (`rand::thread_rng()` behind `random_double_in_range`) is made
explicit: every function that draws randomness takes the drawn value as an
argument, and the integrator takes a tape of draws, one per bounce.
-/

/-- `Vec3` from src/vec3.rs: three floating-point components.  The Rust tuple
fields `.0, .1, .2` are named `x, y, z` after the accessors `x()`, `y()`, `z()`.
Also used as `Point3` and `Colour`. -/
@[ext]
structure Vec3 where
  x : ℝ
  y : ℝ
  z : ℝ

namespace Vec3

/-- `Vec3::ZERO`. -/
def ZERO : Vec3 := ⟨0, 0, 0⟩

/-- `Vec3::X`. -/
def X : Vec3 := ⟨1, 0, 0⟩

/-- `Vec3::Y`. -/
def Y : Vec3 := ⟨0, 1, 0⟩

/-- `Vec3::Z`. -/
def Z : Vec3 := ⟨0, 0, 1⟩

/-- `Vec3::UNIT`. -/
def UNIT : Vec3 := ⟨1, 1, 1⟩

/-- `impl Add for Vec3` (componentwise, via `AddAssign`). -/
noncomputable instance : Add Vec3 := ⟨fun a b => ⟨a.x + b.x, a.y + b.y, a.z + b.z⟩⟩

/-- `impl Sub for Vec3` (componentwise, via `SubAssign`). -/
noncomputable instance : Sub Vec3 := ⟨fun a b => ⟨a.x - b.x, a.y - b.y, a.z - b.z⟩⟩

/-- `impl Neg for Vec3`, translated faithfully from the source: the body is
`Vec3(self.0, self.1, self.2)`, i.e. it returns the components UNCHANGED
(the minus signs are missing in the source). -/
instance : Neg Vec3 := ⟨fun a => ⟨a.x, a.y, a.z⟩⟩

/-- `impl Mul<f32> for Vec3` (componentwise scaling). -/
noncomputable instance : HMul Vec3 ℝ Vec3 := ⟨fun v r => ⟨v.x * r, v.y * r, v.z * r⟩⟩

/-- `impl Mul<Vec3> for f32` (componentwise scaling). -/
noncomputable instance : HMul ℝ Vec3 Vec3 := ⟨fun r v => ⟨r * v.x, r * v.y, r * v.z⟩⟩

/-- `impl Div<f32> for Vec3` (componentwise, via `DivAssign`). -/
noncomputable instance : HDiv Vec3 ℝ Vec3 := ⟨fun v r => ⟨v.x / r, v.y / r, v.z / r⟩⟩

/-- Modelled from the spec: the componentwise colour product used by the
integrator (`attenuation * recursive_result`, spec section 4.6: "componentwise
product — attenuation tints the incoming light").  The `impl Mul<Vec3> for Vec3`
that main.rs line 50 relies on is not among the files under src/. -/
noncomputable instance : Mul Vec3 := ⟨fun a b => ⟨a.x * b.x, a.y * b.y, a.z * b.z⟩⟩

@[simp] lemma add_x (a b : Vec3) : (a + b).x = a.x + b.x := rfl
@[simp] lemma add_y (a b : Vec3) : (a + b).y = a.y + b.y := rfl
@[simp] lemma add_z (a b : Vec3) : (a + b).z = a.z + b.z := rfl
@[simp] lemma sub_x (a b : Vec3) : (a - b).x = a.x - b.x := rfl
@[simp] lemma sub_y (a b : Vec3) : (a - b).y = a.y - b.y := rfl
@[simp] lemma sub_z (a b : Vec3) : (a - b).z = a.z - b.z := rfl
@[simp] lemma neg_x (a : Vec3) : (-a).x = a.x := rfl
@[simp] lemma neg_y (a : Vec3) : (-a).y = a.y := rfl
@[simp] lemma neg_z (a : Vec3) : (-a).z = a.z := rfl
@[simp] lemma smul_x (r : ℝ) (v : Vec3) : (r * v).x = r * v.x := rfl
@[simp] lemma smul_y (r : ℝ) (v : Vec3) : (r * v).y = r * v.y := rfl
@[simp] lemma smul_z (r : ℝ) (v : Vec3) : (r * v).z = r * v.z := rfl
@[simp] lemma mulr_x (v : Vec3) (r : ℝ) : (v * r).x = v.x * r := rfl
@[simp] lemma mulr_y (v : Vec3) (r : ℝ) : (v * r).y = v.y * r := rfl
@[simp] lemma mulr_z (v : Vec3) (r : ℝ) : (v * r).z = v.z * r := rfl
@[simp] lemma div_x (v : Vec3) (r : ℝ) : (v / r).x = v.x / r := rfl
@[simp] lemma div_y (v : Vec3) (r : ℝ) : (v / r).y = v.y / r := rfl
@[simp] lemma div_z (v : Vec3) (r : ℝ) : (v / r).z = v.z / r := rfl
@[simp] lemma mul_x (a b : Vec3) : (a * b).x = a.x * b.x := rfl
@[simp] lemma mul_y (a b : Vec3) : (a * b).y = a.y * b.y := rfl
@[simp] lemma mul_z (a b : Vec3) : (a * b).z = a.z * b.z := rfl

/-- `Vec3::length_squared`. -/
def length_squared (v : Vec3) : ℝ := v.x * v.x + v.y * v.y + v.z * v.z

/-- `Vec3::length`. -/
noncomputable def length (v : Vec3) : ℝ := Real.sqrt v.length_squared

/-- `Vec3::dot`. -/
def dot (v rhs : Vec3) : ℝ := v.x * rhs.x + v.y * rhs.y + v.z * rhs.z

/-- `Vec3::cross`. -/
def cross (v rhs : Vec3) : Vec3 :=
  ⟨v.y * rhs.z - v.z * rhs.y, v.z * rhs.x - v.x * rhs.z, v.x * rhs.y - v.y * rhs.x⟩

/-- `Vec3::unit`: `*self / self.length()`. -/
noncomputable def unit (v : Vec3) : Vec3 := v / v.length

/-- `Vec3::random_in_hemisphere`, with the single draw the source takes from
`Vec3::random_in_unit_sphere()` passed explicitly as `in_unit_sphere`.  The
source keeps the draw when `self.dot(in_unit_sphere) > 0.0` and otherwise
returns its (buggy, identity) negation. -/
noncomputable def random_in_hemisphere (n : Vec3) (in_unit_sphere : Vec3) : Vec3 :=
  if n.dot in_unit_sphere > 0 then in_unit_sphere else -in_unit_sphere

end Vec3

/-- `Ray` from src/main.rs. -/
structure Ray where
  origin : Vec3
  direction : Vec3

/-- `Ray::at`. -/
noncomputable def Ray.at (r : Ray) (t : ℝ) : Vec3 := r.origin + t * r.direction

/-- The two material variants of src/material.rs (`Lambertian`, `Metal`) as a
closed sum; the `Arc<dyn Material>` trait object is this inductive. -/
inductive Material where
  | lambertian (albedo : Vec3)
  | metal (albedo : Vec3) (fuzz : ℝ)

/-- `Lambertian::new`. -/
def Lambertian.new (albedo : Vec3) : Material := .lambertian albedo

/-- `Metal::new`: the fuzz parameter is clamped to `[0, 1]`. -/
def Metal.new (albedo : Vec3) (fuzz : ℝ) : Material :=
  .metal albedo (min (max fuzz 0) 1)

/-- `HitRecord` from src/hit.rs. -/
structure HitRecord where
  p : Vec3
  normal : Vec3
  t : ℝ
  front_face : Bool
  material : Material

/-- `HitRecord::new` from src/hit.rs: `front_face = ray.direction.dot(outward_normal) < 0.0`,
`normal = if front_face { outward_normal } else { -outward_normal }` (with the
source's identity `Neg`). -/
noncomputable def HitRecord.new (ray : Ray) (p : Vec3) (outward_normal : Vec3)
    (t : ℝ) (material : Material) : HitRecord :=
  { p := p
    normal := if ray.direction.dot outward_normal < 0 then outward_normal else -outward_normal
    t := t
    front_face := decide (ray.direction.dot outward_normal < 0)
    material := material }

@[simp] lemma HitRecord.new_p (ray : Ray) (p onrm : Vec3) (t : ℝ) (m : Material) :
    (HitRecord.new ray p onrm t m).p = p := rfl

@[simp] lemma HitRecord.new_t (ray : Ray) (p onrm : Vec3) (t : ℝ) (m : Material) :
    (HitRecord.new ray p onrm t m).t = t := rfl

@[simp] lemma HitRecord.new_material (ray : Ray) (p onrm : Vec3) (t : ℝ) (m : Material) :
    (HitRecord.new ray p onrm t m).material = m := rfl

/-- `reflect` (nested fn inside `impl Material for Metal`): `v - 2.0 * v.dot(n) * n`. -/
noncomputable def reflect (v n : Vec3) : Vec3 := v - (2 * v.dot n) * n

/-- `Material::scatter` for both variants of src/material.rs, with the single
random draw of each branch (`Vec3::random_unit_vector()` for Lambertian,
`Vec3::random_in_unit_sphere()` for Metal) passed explicitly as `rnd`. -/
noncomputable def Material.scatter (m : Material) (ray : Ray) (hit_rec : HitRecord)
    (rnd : Vec3) : Option (Vec3 × Ray) :=
  match m with
  | .lambertian albedo =>
      some (albedo, { origin := hit_rec.p, direction := hit_rec.normal + rnd })
  | .metal albedo fuzz =>
      if (reflect ray.direction.unit hit_rec.normal).dot hit_rec.normal > 0 then
        some (albedo,
          { origin := hit_rec.p
            direction := reflect ray.direction.unit hit_rec.normal + fuzz * rnd })
      else
        none

/-- `Sphere` from src/main.rs. -/
structure Sphere where
  center : Vec3
  radius : ℝ
  material : Material

namespace Sphere

/-- `let oc = ray.origin - self.center` in `Sphere::hit`. -/
noncomputable def oc (s : Sphere) (ray : Ray) : Vec3 := ray.origin - s.center

/-- `let a = ray.direction.length_squared()` in `Sphere::hit`. -/
def a (s : Sphere) (ray : Ray) : ℝ := ray.direction.length_squared

/-- `let half_b = oc.dot(ray.direction)` in `Sphere::hit`. -/
noncomputable def half_b (s : Sphere) (ray : Ray) : ℝ := (s.oc ray).dot ray.direction

/-- `let c = oc.length_squared() - self.radius * self.radius` in `Sphere::hit`. -/
noncomputable def c (s : Sphere) (ray : Ray) : ℝ :=
  (s.oc ray).length_squared - s.radius * s.radius

/-- `let discriminant = half_b * half_b - a * c` in `Sphere::hit`. -/
noncomputable def discriminant (s : Sphere) (ray : Ray) : ℝ :=
  s.half_b ray * s.half_b ray - s.a ray * s.c ray

/-- The first candidate `temp = (-half_b - root) / a` in `Sphere::hit`
(the smaller quadratic root once `a > 0`). -/
noncomputable def root1 (s : Sphere) (ray : Ray) : ℝ :=
  (-s.half_b ray - Real.sqrt (s.discriminant ray)) / s.a ray

/-- The second candidate `temp = (-half_b + root) / a` in `Sphere::hit`. -/
noncomputable def root2 (s : Sphere) (ray : Ray) : ℝ :=
  (-s.half_b ray + Real.sqrt (s.discriminant ray)) / s.a ray

/-- The shadowed `temp` of `Sphere::hit`: the first root, unless it falls
outside `(t_min, t_max)` (`temp >= t_max || temp <= t_min`), in which case
the second root. -/
noncomputable def chosenRoot (s : Sphere) (ray : Ray) (t_min t_max : WithTop ℝ) : ℝ :=
  if (s.root1 ray : WithTop ℝ) ≥ t_max ∨ (s.root1 ray : WithTop ℝ) ≤ t_min then
    s.root2 ray
  else
    s.root1 ray

/-- The `HitRecord::new(ray, point, (point - self.center) / self.radius, temp, ...)`
call of `Sphere::hit`, at parameter `temp`. -/
noncomputable def recordAt (s : Sphere) (ray : Ray) (temp : ℝ) : HitRecord :=
  HitRecord.new ray (ray.at temp) ((ray.at temp - s.center) / s.radius) temp s.material

/-- `impl Hit for Sphere` from src/main.rs, on ideal reals with the `f32`
infinity modelled by `⊤ : WithTop ℝ`. -/
noncomputable def hit (s : Sphere) (ray : Ray) (t_min t_max : WithTop ℝ) :
    Option HitRecord :=
  if 0 < s.discriminant ray then
    if (↑(s.chosenRoot ray t_min t_max) < t_max ∧ ↑(s.chosenRoot ray t_min t_max) > t_min) then
      some (s.recordAt ray (s.chosenRoot ray t_min t_max))
    else
      none
  else
    none

end Sphere

/-- The `for` loop of `impl Hit for HitList` (src/hit.rs lines 58-63): walk the
members, querying each with the shrinking upper bound `closest_so_far`, and
replace `record` whenever a member reports a hit. -/
noncomputable def hitLoop (ray : Ray) (t_min : WithTop ℝ) :
    List Sphere → WithTop ℝ → Option HitRecord → Option HitRecord
  | [], _closest_so_far, record => record
  | o :: rest, closest_so_far, record =>
    match o.hit ray t_min closest_so_far with
    | some new_rec => hitLoop ray t_min rest (↑new_rec.t) (some new_rec)
    | none => hitLoop ray t_min rest closest_so_far record

/-- `impl Hit for HitList` from src/hit.rs: `closest_so_far` starts at `t_max`
and `record` at `None`.  The `Vec<Box<dyn Hit>>` of members is a `List Sphere`
(`Sphere` is the only primitive of the repository). -/
noncomputable def HitList.hit (objects : List Sphere) (ray : Ray)
    (t_min t_max : WithTop ℝ) : Option HitRecord :=
  hitLoop ray t_min objects t_max none

/-- `Ray::colour` from src/main.rs, with the thread-local random source made
explicit as a `tape` of draws, one Vec3 per bounce (the single draw the
material's `scatter` makes).  `f32::INFINITY` is `⊤ : WithTop ℝ`. -/
noncomputable def Ray.colour (ray : Ray) (world : List Sphere) (max_depth : ℕ)
    (tape : ℕ → Vec3) : Vec3 :=
  if max_depth = 0 then
    Vec3.ZERO
  else
    match HitList.hit world ray ((0.001 : ℝ) : WithTop ℝ) ⊤ with
    | some rec =>
      match Material.scatter rec.material ray rec (tape 0) with
      | some (attenuation, scattered) =>
        attenuation * Ray.colour scattered world (max_depth - 1) (fun n => tape (n + 1))
      | none => Vec3.ZERO
    | none =>
      (1 - 0.5 * (ray.direction.unit.y + 1)) * Vec3.mk 1 1 1 +
        (0.5 * (ray.direction.unit.y + 1)) * Vec3.mk 0.5 0.7 1.0
termination_by max_depth
decreasing_by simp_wf; omega

/-- A camera-style ray looking down the negative z axis. -/
def rayA : Ray := ⟨Vec3.ZERO, ⟨0, 0, -1⟩⟩

/-- Unit sphere two units in front of `rayA` (roots 1 and 3 along it). -/
def sA : Sphere := ⟨⟨0, 0, -2⟩, 1, Lambertian.new Vec3.UNIT⟩

/-- Unit sphere four units in front of `rayA` (roots 3 and 5 along it). -/
def sB : Sphere := ⟨⟨0, 0, -4⟩, 1, Lambertian.new Vec3.UNIT⟩

/-- A ray pointing straight up (misses every demo sphere). -/
def rayUp : Ray := ⟨Vec3.ZERO, ⟨0, 1, 0⟩⟩

/-- A random tape whose first draw sends the first bounce upward. -/
def tape1 : ℕ → Vec3 := fun _ => ⟨0, 1, -1⟩

/-- A random tape whose first draw sends the first bounce downward. -/
def tape2 : ℕ → Vec3 := fun _ => ⟨0, -1, -1⟩

/-- The all-zero random tape. -/
def tape0 : ℕ → Vec3 := fun _ => Vec3.ZERO

/-- C3: for every `Vec3 v`, the source's unary negation (`impl Neg for Vec3`,
whose body is `Vec3(self.0, self.1, self.2)`) returns `v` unchanged: negation
is the identity function on `Vec3`. -/
theorem vec3_neg_identity : ∀ v : Vec3, -v = v := fun _ => rfl

/-- C1 (code bug): at ray direction `(0,0,1)` and outward normal `(0,0,1)`,
`HitRecord::new` correctly computes `front_face = false`, but the stored normal
is `(0,0,1)` — NOT the componentwise negation `(0,0,-1)` the claim (and spec
section 4.3) requires — and its dot product with the incoming ray's direction
is `1 > 0`, so the stored normal does not point against the incoming ray.
The cause is the identity `Neg` of src/vec3.rs. -/
theorem hitRecord_new_orientation_failure :
    (HitRecord.new ⟨Vec3.ZERO, ⟨0, 0, 1⟩⟩ Vec3.ZERO ⟨0, 0, 1⟩ 1
        (Lambertian.new Vec3.UNIT)).front_face = false ∧
    (HitRecord.new ⟨Vec3.ZERO, ⟨0, 0, 1⟩⟩ Vec3.ZERO ⟨0, 0, 1⟩ 1
        (Lambertian.new Vec3.UNIT)).normal = ⟨0, 0, 1⟩ ∧
    0 < ((HitRecord.new ⟨Vec3.ZERO, ⟨0, 0, 1⟩⟩ Vec3.ZERO ⟨0, 0, 1⟩ 1
        (Lambertian.new Vec3.UNIT)).normal).dot ⟨0, 0, 1⟩ := by
  refine ⟨?_, ?_, ?_⟩ <;> norm_num [HitRecord.new, Vec3.dot] <;> rfl

/-- C2 (code bug): at normal `(0,0,1)` and unit-sphere draw `(0,0,-1/2)` (a
legitimate outcome of `random_in_unit_sphere`, its squared length is `1/4 < 1`),
`random_in_hemisphere` takes the negation branch but — `Neg` being the identity
in src/vec3.rs — returns the draw unchanged, and the result has dot product
`-1/2 < 0` with the normal, violating the claimed `dot(result, n) ≥ 0`. -/
theorem random_in_hemisphere_failure :
    (Vec3.mk 0 0 (-(1/2))).length_squared < 1 ∧
    Vec3.random_in_hemisphere ⟨0, 0, 1⟩ ⟨0, 0, -(1/2)⟩ = ⟨0, 0, -(1/2)⟩ ∧
    (Vec3.random_in_hemisphere ⟨0, 0, 1⟩ ⟨0, 0, -(1/2)⟩).dot ⟨0, 0, 1⟩ < 0 := by
  refine ⟨by norm_num [Vec3.length_squared], ?_, ?_⟩ <;>
      norm_num [Vec3.random_in_hemisphere, Vec3.dot] <;> rfl

/-- C8: `Lambertian::scatter` never returns `None`: for every incoming ray, hit
record and random draw it returns `Some` of the material's albedo and a ray
with origin `hit.p` and direction `hit.normal + random_unit_vector()`. -/
theorem lambertian_scatter_always (albedo : Vec3) (ray : Ray) (hit_rec : HitRecord)
    (rnd : Vec3) :
    Material.scatter (Lambertian.new albedo) ray hit_rec rnd =
      some (albedo, { origin := hit_rec.p, direction := hit_rec.normal + rnd }) := rfl

/-- C7: `Ray::colour` with a remaining depth of zero returns black for every
ray, world and random tape. -/
theorem colour_depth_zero (ray : Ray) (world : List Sphere) (tape : ℕ → Vec3) :
    Ray.colour ray world 0 tape = Vec3.ZERO := by
  simp [Ray.colour]

/-- C5 (amended): `Metal::scatter` returns `Some(albedo, scattered)` — with
`scattered.origin = hit.p` and `scattered.direction` the reflection
`v - 2·dot(v,n)·n` of the ray's unit direction `v` about the hit normal `n`,
plus the clamped fuzz times the unit-sphere draw — if and only if the
UNPERTURBED reflection points away from the surface (`dot(reflected, normal)
> 0`, tested before the fuzz perturbation is added); otherwise `None`. -/
theorem metal_scatter_unperturbed_check (albedo : Vec3) (fuzz : ℝ) (ray : Ray)
    (hit_rec : HitRecord) (rnd : Vec3) :
    Material.scatter (Metal.new albedo fuzz) ray hit_rec rnd =
      if 0 < (ray.direction.unit -
          (2 * ray.direction.unit.dot hit_rec.normal) * hit_rec.normal).dot hit_rec.normal
      then
        some (albedo,
          { origin := hit_rec.p
            direction := ray.direction.unit -
              (2 * ray.direction.unit.dot hit_rec.normal) * hit_rec.normal +
              min (max fuzz 0) 1 * rnd })
      else none := by
  simp only [Material.scatter, Metal.new, reflect, gt_iff_lt]

/-- C5 (counterexample to the claim as stated): with incoming direction
`(0,3,-4)` (unit direction `(0, 0.6, -0.8)`), hit normal `(0,0,1)`, fuzz `1`
and unit-sphere draw `(0,0,-0.9)`, `Metal::scatter` RETURNS `Some` — the test
`dot(reflected, normal) = 0.8 > 0` is made on the unperturbed reflection
`(0, 0.6, 0.8)` — even though the perturbed scattered direction `(0, 0.6, -0.1)`
has dot product `-0.1 < 0` with the normal, i.e. points into the surface.  This
refutes "returns Some ... if and only if the perturbed reflection still points
away from the surface". -/
theorem metal_scatter_perturbed_into_surface :
    Material.scatter (Metal.new Vec3.UNIT 1) ⟨Vec3.ZERO, ⟨0, 3, -4⟩⟩
        ⟨Vec3.ZERO, ⟨0, 0, 1⟩, 1, true, Metal.new Vec3.UNIT 1⟩ ⟨0, 0, -0.9⟩ =
      some (Vec3.UNIT, { origin := Vec3.ZERO, direction := ⟨0, 0.6, -0.1⟩ }) ∧
    (Vec3.mk 0 0 (-0.9)).length_squared < 1 ∧
    (Vec3.mk 0 0.6 (-0.1)).dot ⟨0, 0, 1⟩ < 0 := by
  have h25 : Real.sqrt 25 = 5 := by
    rw [show (25 : ℝ) = 5 ^ 2 by norm_num]
    exact Real.sqrt_sq (by norm_num)
  refine ⟨?_, by norm_num [Vec3.length_squared], by norm_num [Vec3.dot]⟩
  have hunit : (Vec3.mk 0 3 (-4) : Vec3).unit = ⟨0, 0.6, -0.8⟩ := by
    simp only [Vec3.unit, Vec3.length, Vec3.length_squared]
    norm_num [h25]
    ext <;> norm_num
  simp only [Material.scatter, Metal.new, reflect]
  rw [hunit]
  rw [if_pos (by norm_num [Vec3.dot])]
  refine congrArg some (Prod.ext rfl ?_)
  refine congrArg (Ray.mk Vec3.ZERO) ?_
  ext <;> norm_num [Vec3.dot]

@[simp] lemma Sphere.recordAt_t (s : Sphere) (ray : Ray) (temp : ℝ) :
    (s.recordAt ray temp).t = temp := rfl

lemma Sphere.a_nonneg (s : Sphere) (ray : Ray) : 0 ≤ s.a ray :=
  add_nonneg (add_nonneg (mul_self_nonneg _) (mul_self_nonneg _)) (mul_self_nonneg _)

lemma Sphere.a_pos_of_disc (s : Sphere) (ray : Ray) (h : 0 < s.discriminant ray) :
    0 < s.a ray := by
  rcases (s.a_nonneg ray).lt_or_eq with ha | ha
  · exact ha
  · exfalso
    have hx : ray.direction.x = 0 := by
      have := mul_self_nonneg ray.direction.x
      have := mul_self_nonneg ray.direction.y
      have := mul_self_nonneg ray.direction.z
      have ha' := ha.symm
      unfold Sphere.a Vec3.length_squared at ha'
      nlinarith
    have hy : ray.direction.y = 0 := by
      have := mul_self_nonneg ray.direction.x
      have := mul_self_nonneg ray.direction.y
      have := mul_self_nonneg ray.direction.z
      have ha' := ha.symm
      unfold Sphere.a Vec3.length_squared at ha'
      nlinarith
    have hz : ray.direction.z = 0 := by
      have := mul_self_nonneg ray.direction.x
      have := mul_self_nonneg ray.direction.y
      have := mul_self_nonneg ray.direction.z
      have ha' := ha.symm
      unfold Sphere.a Vec3.length_squared at ha'
      nlinarith
    have hb : s.half_b ray = 0 := by
      unfold Sphere.half_b Vec3.dot
      rw [hx, hy, hz]
      ring
    have : s.discriminant ray = 0 := by
      unfold Sphere.discriminant
      rw [hb, ← ha]
      ring
    exact absurd this h.ne'

lemma Sphere.root1_le_root2 (s : Sphere) (ray : Ray) (h : 0 < s.discriminant ray) :
    s.root1 ray ≤ s.root2 ray := by
  unfold Sphere.root1 Sphere.root2
  have ha := s.a_pos_of_disc ray h
  have hs := Real.sqrt_nonneg (s.discriminant ray)
  exact (div_le_div_right ha).mpr (by linarith)

lemma Sphere.chosenRoot_eq_root1 {s : Sphere} {ray : Ray} {t_min t_max : WithTop ℝ}
    (h : ¬((s.root1 ray : WithTop ℝ) ≥ t_max ∨ (s.root1 ray : WithTop ℝ) ≤ t_min)) :
    s.chosenRoot ray t_min t_max = s.root1 ray := if_neg h

lemma Sphere.chosenRoot_eq_root2 {s : Sphere} {ray : Ray} {t_min t_max : WithTop ℝ}
    (h : (s.root1 ray : WithTop ℝ) ≥ t_max ∨ (s.root1 ray : WithTop ℝ) ≤ t_min) :
    s.chosenRoot ray t_min t_max = s.root2 ray := if_pos h

lemma Sphere.hit_eq_some_iff {s : Sphere} {ray : Ray} {t_min t_max : WithTop ℝ}
    {r : HitRecord} :
    s.hit ray t_min t_max = some r ↔
      0 < s.discriminant ray ∧
      ((s.chosenRoot ray t_min t_max : WithTop ℝ) < t_max ∧
        t_min < (s.chosenRoot ray t_min t_max : WithTop ℝ)) ∧
      r = s.recordAt ray (s.chosenRoot ray t_min t_max) := by
  unfold Sphere.hit
  by_cases hd : 0 < s.discriminant ray
  · by_cases hb : ((s.chosenRoot ray t_min t_max : WithTop ℝ) < t_max ∧
        (s.chosenRoot ray t_min t_max : WithTop ℝ) > t_min)
    · rw [if_pos hd, if_pos hb]
      simp only [Option.some.injEq]
      constructor
      · intro h
        exact ⟨hd, ⟨hb.1, hb.2⟩, h.symm⟩
      · intro ⟨_, _, h⟩
        exact h.symm
    · rw [if_pos hd, if_neg hb]
      constructor
      · intro h
        cases h
      · intro ⟨_, hin, _⟩
        exact absurd ⟨hin.1, hin.2⟩ hb
  · rw [if_neg hd]
    constructor
    · intro h
      cases h
    · intro ⟨hd2, _, _⟩
      exact absurd hd2 hd

lemma Sphere.hit_eq_none_of_not_inside {s : Sphere} {ray : Ray}
    {t_min t_max : WithTop ℝ}
    (h : ¬((s.chosenRoot ray t_min t_max : WithTop ℝ) < t_max ∧
        t_min < (s.chosenRoot ray t_min t_max : WithTop ℝ))) :
    s.hit ray t_min t_max = none := by
  unfold Sphere.hit
  by_cases hd : 0 < s.discriminant ray
  · rw [if_pos hd, if_neg]
    intro hb
    exact h ⟨hb.1, hb.2⟩
  · rw [if_neg hd]


lemma Sphere.hit_t_bounds {s : Sphere} {ray : Ray} {t_min c : WithTop ℝ}
    {r : HitRecord} (h : s.hit ray t_min c = some r) :
    t_min < (r.t : WithTop ℝ) ∧ (r.t : WithTop ℝ) < c := by
  obtain ⟨_, ⟨h1, h2⟩, hr⟩ := Sphere.hit_eq_some_iff.mp h
  rw [hr, Sphere.recordAt_t]
  exact ⟨h2, h1⟩

lemma Sphere.hit_mono {s : Sphere} {ray : Ray} {t_min c C : WithTop ℝ}
    {r : HitRecord} (hcC : c ≤ C) (h : s.hit ray t_min c = some r) :
    s.hit ray t_min C = some r := by
  obtain ⟨hd, ⟨h1, h2⟩, hr⟩ := Sphere.hit_eq_some_iff.mp h
  by_cases hcase : ((s.root1 ray : WithTop ℝ) ≥ c ∨ (s.root1 ray : WithTop ℝ) ≤ t_min)
  · have hch : s.chosenRoot ray t_min c = s.root2 ray := Sphere.chosenRoot_eq_root2 hcase
    rw [hch] at h1 h2 hr
    have hr12 : (s.root1 ray : WithTop ℝ) ≤ (s.root2 ray : WithTop ℝ) :=
      WithTop.coe_le_coe.mpr (s.root1_le_root2 ray hd)
    have hmin : (s.root1 ray : WithTop ℝ) ≤ t_min := by
      rcases hcase with hge | hle
      · exact absurd (lt_of_le_of_lt hr12 h1) (not_lt.mpr hge)
      · exact hle
    have hch' : s.chosenRoot ray t_min C = s.root2 ray :=
      Sphere.chosenRoot_eq_root2 (Or.inr hmin)
    rw [Sphere.hit_eq_some_iff]
    exact ⟨hd, by rw [hch']; exact ⟨lt_of_lt_of_le h1 hcC, h2⟩, by rw [hch']; exact hr⟩
  · have hch : s.chosenRoot ray t_min c = s.root1 ray := Sphere.chosenRoot_eq_root1 hcase
    rw [hch] at h1 h2 hr
    push_neg at hcase
    have hch' : s.chosenRoot ray t_min C = s.root1 ray := by
      apply Sphere.chosenRoot_eq_root1
      push_neg
      exact ⟨lt_of_lt_of_le h1 hcC, hcase.2⟩
    rw [Sphere.hit_eq_some_iff]
    exact ⟨hd, by rw [hch']; exact ⟨lt_of_lt_of_le h1 hcC, h2⟩, by rw [hch']; exact hr⟩

lemma Sphere.hit_shrink {s : Sphere} {ray : Ray} {t_min c c' : WithTop ℝ}
    {r : HitRecord} (hc : c' ≤ c) (h : s.hit ray t_min c = some r) :
    ((r.t : WithTop ℝ) < c' → s.hit ray t_min c' = some r) ∧
    (¬((r.t : WithTop ℝ) < c') → s.hit ray t_min c' = none) := by
  obtain ⟨hd, ⟨h1, h2⟩, hr⟩ := Sphere.hit_eq_some_iff.mp h
  have hrt : r.t = s.chosenRoot ray t_min c := by rw [hr, Sphere.recordAt_t]
  have hr12 : (s.root1 ray : WithTop ℝ) ≤ (s.root2 ray : WithTop ℝ) :=
    WithTop.coe_le_coe.mpr (s.root1_le_root2 ray hd)
  by_cases hcase : ((s.root1 ray : WithTop ℝ) ≥ c ∨ (s.root1 ray : WithTop ℝ) ≤ t_min)
  · have hch : s.chosenRoot ray t_min c = s.root2 ray := Sphere.chosenRoot_eq_root2 hcase
    rw [hch] at h1 h2 hr hrt
    have hmin : (s.root1 ray : WithTop ℝ) ≤ t_min := by
      rcases hcase with hge | hle
      · exact absurd (lt_of_le_of_lt hr12 h1) (not_lt.mpr hge)
      · exact hle
    have hch' : s.chosenRoot ray t_min c' = s.root2 ray :=
      Sphere.chosenRoot_eq_root2 (Or.inr hmin)
    constructor
    · intro hlt
      rw [hrt] at hlt
      rw [Sphere.hit_eq_some_iff]
      exact ⟨hd, by rw [hch']; exact ⟨hlt, h2⟩, by rw [hch']; exact hr⟩
    · intro hnlt
      rw [hrt] at hnlt
      apply Sphere.hit_eq_none_of_not_inside
      rw [hch']
      intro ⟨hx, _⟩
      exact hnlt hx
  · have hch : s.chosenRoot ray t_min c = s.root1 ray := Sphere.chosenRoot_eq_root1 hcase
    rw [hch] at h1 h2 hr hrt
    push_neg at hcase
    constructor
    · intro hlt
      rw [hrt] at hlt
      have hch' : s.chosenRoot ray t_min c' = s.root1 ray := by
        apply Sphere.chosenRoot_eq_root1
        push_neg
        exact ⟨hlt, hcase.2⟩
      rw [Sphere.hit_eq_some_iff]
      exact ⟨hd, by rw [hch']; exact ⟨hlt, h2⟩, by rw [hch']; exact hr⟩
    · intro hnlt
      rw [hrt] at hnlt
      have hge : (s.root1 ray : WithTop ℝ) ≥ c' := not_lt.mp hnlt
      have hch' : s.chosenRoot ray t_min c' = s.root2 ray :=
        Sphere.chosenRoot_eq_root2 (Or.inl hge)
      apply Sphere.hit_eq_none_of_not_inside
      rw [hch']
      intro ⟨hx, _⟩
      exact absurd (lt_of_le_of_lt (le_trans hge hr12) hx) (lt_irrefl _)

lemma hitLoop_some_ne_none (ray : Ray) (t_min : WithTop ℝ) (objs : List Sphere) :
    ∀ (closest : WithTop ℝ) (r : HitRecord),
      hitLoop ray t_min objs closest (some r) ≠ none := by
  induction objs with
  | nil =>
    intro closest r h
    simp [hitLoop] at h
  | cons o rest ih =>
    intro closest r h
    simp only [hitLoop] at h
    split at h
    · exact ih _ _ h
    · exact ih _ _ h

lemma hitLoop_none_iff (ray : Ray) (t_min : WithTop ℝ) (objs : List Sphere) :
    ∀ closest : WithTop ℝ,
      hitLoop ray t_min objs closest none = none ↔
        ∀ o ∈ objs, o.hit ray t_min closest = none := by
  induction objs with
  | nil =>
    intro closest
    simp [hitLoop]
  | cons o rest ih =>
    intro closest
    simp only [hitLoop]
    constructor
    · intro h
      split at h
      · exact absurd h (hitLoop_some_ne_none ray t_min rest _ _)
      · rename_i heq
        intro o' hmem
        rcases List.mem_cons.mp hmem with rfl | hm
        · exact heq
        · exact (ih closest).mp h o' hm
    · intro h
      split
      · rename_i nr heq
        exact absurd heq (by rw [h o (List.mem_cons_self o rest)]; intro hc; cases hc)
      · exact (ih closest).mpr fun o' hm => h o' (List.mem_cons_of_mem _ hm)

lemma hitLoop_provenance (ray : Ray) (t_min t_max : WithTop ℝ) (objs : List Sphere) :
    ∀ (closest : WithTop ℝ) (record : Option HitRecord) (rec : HitRecord),
      closest ≤ t_max → hitLoop ray t_min objs closest record = some rec →
      record = some rec ∨ ∃ o ∈ objs, Sphere.hit o ray t_min t_max = some rec := by
  induction objs with
  | nil =>
    intro closest record rec _ h
    exact Or.inl h
  | cons o rest ih =>
    intro closest record rec hle h
    simp only [hitLoop] at h
    split at h
    · rename_i nr heq
      have hb := Sphere.hit_t_bounds heq
      have hle' : (nr.t : WithTop ℝ) ≤ t_max := le_trans (le_of_lt hb.2) hle
      rcases ih _ _ _ hle' h with hrec | ⟨o', hm, h'⟩
      · obtain rfl : nr = rec := Option.some.inj hrec
        exact Or.inr ⟨o, List.mem_cons_self o rest, Sphere.hit_mono hle heq⟩
      · exact Or.inr ⟨o', List.mem_cons_of_mem _ hm, h'⟩
    · rcases ih _ _ _ hle h with hrec | ⟨o', hm, h'⟩
      · exact Or.inl hrec
      · exact Or.inr ⟨o', List.mem_cons_of_mem _ hm, h'⟩

lemma hitLoop_result_lt (ray : Ray) (t_min : WithTop ℝ) (objs : List Sphere) :
    ∀ (closest : WithTop ℝ) (record : Option HitRecord) (rec : HitRecord),
      hitLoop ray t_min objs closest record = some rec →
      record = some rec ∨ (rec.t : WithTop ℝ) < closest := by
  induction objs with
  | nil =>
    intro closest record rec h
    exact Or.inl h
  | cons o rest ih =>
    intro closest record rec h
    simp only [hitLoop] at h
    split at h
    · rename_i nr heq
      have hb := Sphere.hit_t_bounds heq
      rcases ih _ _ _ h with hrec | hlt
      · obtain rfl : nr = rec := Option.some.inj hrec
        exact Or.inr hb.2
      · exact Or.inr (lt_trans hlt hb.2)
    · exact ih _ _ _ h

lemma hitLoop_min (ray : Ray) (t_min : WithTop ℝ) (objs : List Sphere) :
    ∀ (closest : WithTop ℝ) (record : Option HitRecord) (rec : HitRecord),
      hitLoop ray t_min objs closest record = some rec →
      ∀ o ∈ objs, ∀ r', Sphere.hit o ray t_min closest = some r' → rec.t ≤ r'.t := by
  induction objs with
  | nil =>
    intro closest record rec _ o hmem
    cases hmem
  | cons o rest ih =>
    intro closest record rec h o' hmem r' ho'
    simp only [hitLoop] at h
    rcases List.mem_cons.mp hmem with rfl | hm
    · rw [ho'] at h
      simp only at h
      rcases hitLoop_result_lt ray t_min rest _ _ _ h with hrec | hlt
      · obtain rfl : r' = rec := Option.some.inj hrec
        exact le_refl _
      · exact le_of_lt (WithTop.coe_lt_coe.mp hlt)
    · split at h
      · rename_i nr heq
        have hnr := Sphere.hit_t_bounds heq
        have hsh := Sphere.hit_shrink (le_of_lt hnr.2) ho'
        by_cases hlt : (r'.t : WithTop ℝ) < (nr.t : WithTop ℝ)
        · exact ih _ _ _ h o' hm r' (hsh.1 hlt)
        · have hn : (nr.t : WithTop ℝ) ≤ (r'.t : WithTop ℝ) := not_lt.mp hlt
          rcases hitLoop_result_lt ray t_min rest _ _ _ h with hrec | hlt2
          · obtain rfl : nr = rec := Option.some.inj hrec
            exact WithTop.coe_le_coe.mp hn
          · exact le_of_lt (WithTop.coe_lt_coe.mp (lt_of_lt_of_le hlt2 hn))
      · exact ih _ _ _ h o' hm r' ho'

/-- C4: `HitList::hit` returns `None` exactly when no member is hit within
`(t_min, t_max)`, and when it returns a `HitRecord` that record is one of the
member hits within those bounds and its `t` is the smallest among them — never
a farther one. -/
theorem hitList_hit_nearest (objs : List Sphere) (ray : Ray) (t_min t_max : WithTop ℝ) :
    (HitList.hit objs ray t_min t_max = none ↔
      ∀ o ∈ objs, Sphere.hit o ray t_min t_max = none) ∧
    (∀ rec, HitList.hit objs ray t_min t_max = some rec →
      (∃ o ∈ objs, Sphere.hit o ray t_min t_max = some rec) ∧
      (∀ o ∈ objs, ∀ r', Sphere.hit o ray t_min t_max = some r' → rec.t ≤ r'.t)) := by
  constructor
  · exact hitLoop_none_iff ray t_min objs t_max
  · intro rec h
    constructor
    · rcases hitLoop_provenance ray t_min t_max objs t_max none rec le_rfl h with hrec | hex
      · cases hrec
      · exact hex
    · exact hitLoop_min ray t_min objs t_max none rec h

/-- C6: `Sphere::hit` returns `None` when the discriminant is `≤ 0`; otherwise
it selects the smaller root `root1 = (-half_b - √disc)/a` when that root lies
strictly inside `(t_min, t_max)`, else the larger root `root2` under the same
strict bounds, and returns `None` when neither does; on success the returned
record is `HitRecord::new` at the selected root `temp`, with hit point
`ray.at(temp)`, outward normal `(point - center)/radius` and `t = temp`. -/
theorem sphere_hit_roots (s : Sphere) (ray : Ray) (t_min t_max : WithTop ℝ) :
    (s.discriminant ray ≤ 0 → s.hit ray t_min t_max = none) ∧
    (0 < s.discriminant ray →
      s.root1 ray ≤ s.root2 ray ∧
      (∀ temp : ℝ, (s.recordAt ray temp).t = temp ∧
        s.recordAt ray temp =
          HitRecord.new ray (ray.at temp) ((ray.at temp - s.center) / s.radius) temp
            s.material) ∧
      ((t_min < (s.root1 ray : WithTop ℝ) ∧ (s.root1 ray : WithTop ℝ) < t_max) →
        s.hit ray t_min t_max = some (s.recordAt ray (s.root1 ray))) ∧
      (¬(t_min < (s.root1 ray : WithTop ℝ) ∧ (s.root1 ray : WithTop ℝ) < t_max) →
        ((t_min < (s.root2 ray : WithTop ℝ) ∧ (s.root2 ray : WithTop ℝ) < t_max) →
          s.hit ray t_min t_max = some (s.recordAt ray (s.root2 ray))) ∧
        (¬(t_min < (s.root2 ray : WithTop ℝ) ∧ (s.root2 ray : WithTop ℝ) < t_max) →
          s.hit ray t_min t_max = none))) := by
  constructor
  · intro hd
    unfold Sphere.hit
    rw [if_neg (not_lt.mpr hd)]
  · intro hd
    refine ⟨s.root1_le_root2 ray hd, fun temp => ⟨rfl, rfl⟩, ?_, ?_⟩
    · intro ⟨hm, hM⟩
      have hch : s.chosenRoot ray t_min t_max = s.root1 ray := by
        apply Sphere.chosenRoot_eq_root1
        push_neg
        exact ⟨hM, hm⟩
      rw [Sphere.hit_eq_some_iff]
      exact ⟨hd, by rw [hch]; exact ⟨hM, hm⟩, by rw [hch]⟩
    · intro hn1
      have hcase : ((s.root1 ray : WithTop ℝ) ≥ t_max ∨ (s.root1 ray : WithTop ℝ) ≤ t_min) := by
        by_contra hc
        push_neg at hc
        exact hn1 ⟨hc.2, hc.1⟩
      have hch : s.chosenRoot ray t_min t_max = s.root2 ray :=
        Sphere.chosenRoot_eq_root2 hcase
      constructor
      · intro ⟨hm, hM⟩
        rw [Sphere.hit_eq_some_iff]
        exact ⟨hd, by rw [hch]; exact ⟨hM, hm⟩, by rw [hch]⟩
      · intro hn2
        apply Sphere.hit_eq_none_of_not_inside
        rw [hch]
        intro ⟨hx, hy⟩
        exact hn2 ⟨hy, hx⟩

lemma discA : sA.discriminant rayA = 1 := by
  norm_num [sA, rayA, Sphere.discriminant, Sphere.half_b, Sphere.a, Sphere.c, Sphere.oc,
    Vec3.dot, Vec3.length_squared, Vec3.ZERO]

lemma rootA1 : sA.root1 rayA = 1 := by
  rw [Sphere.root1, discA, Real.sqrt_one]
  norm_num [sA, rayA, Sphere.half_b, Sphere.a, Sphere.oc, Vec3.dot, Vec3.length_squared,
    Vec3.ZERO]

lemma chosenA : sA.chosenRoot rayA ((0.001 : ℝ) : WithTop ℝ) ⊤ = 1 := by
  rw [show (1 : ℝ) = sA.root1 rayA from rootA1.symm]
  apply Sphere.chosenRoot_eq_root1
  rw [rootA1]
  push_neg
  exact ⟨WithTop.coe_lt_top 1, WithTop.coe_lt_coe.mpr (by norm_num)⟩

lemma hitA : Sphere.hit sA rayA ((0.001 : ℝ) : WithTop ℝ) ⊤ = some (sA.recordAt rayA 1) := by
  rw [Sphere.hit_eq_some_iff]
  refine ⟨by rw [discA]; norm_num, ?_, by rw [chosenA]⟩
  rw [chosenA]
  exact ⟨WithTop.coe_lt_top 1, WithTop.coe_lt_coe.mpr (by norm_num)⟩

lemma discB : sB.discriminant rayA = 1 := by
  norm_num [sB, rayA, Sphere.discriminant, Sphere.half_b, Sphere.a, Sphere.c, Sphere.oc,
    Vec3.dot, Vec3.length_squared, Vec3.ZERO]

lemma rootB1 : sB.root1 rayA = 3 := by
  rw [Sphere.root1, discB, Real.sqrt_one]
  norm_num [sB, rayA, Sphere.half_b, Sphere.a, Sphere.oc, Vec3.dot, Vec3.length_squared,
    Vec3.ZERO]

lemma rootB2 : sB.root2 rayA = 5 := by
  rw [Sphere.root2, discB, Real.sqrt_one]
  norm_num [sB, rayA, Sphere.half_b, Sphere.a, Sphere.oc, Vec3.dot, Vec3.length_squared,
    Vec3.ZERO]

lemma chosenB : sB.chosenRoot rayA ((0.001 : ℝ) : WithTop ℝ) ⊤ = 3 := by
  rw [show (3 : ℝ) = sB.root1 rayA from rootB1.symm]
  apply Sphere.chosenRoot_eq_root1
  rw [rootB1]
  push_neg
  exact ⟨WithTop.coe_lt_top 3, WithTop.coe_lt_coe.mpr (by norm_num)⟩

lemma hitBFull : Sphere.hit sB rayA ((0.001 : ℝ) : WithTop ℝ) ⊤ = some (sB.recordAt rayA 3) := by
  rw [Sphere.hit_eq_some_iff]
  refine ⟨by rw [discB]; norm_num, ?_, by rw [chosenB]⟩
  rw [chosenB]
  exact ⟨WithTop.coe_lt_top 3, WithTop.coe_lt_coe.mpr (by norm_num)⟩

lemma hitBAtOne : Sphere.hit sB rayA ((0.001 : ℝ) : WithTop ℝ) ((1 : ℝ) : WithTop ℝ) = none := by
  have hch : sB.chosenRoot rayA ((0.001 : ℝ) : WithTop ℝ) ((1 : ℝ) : WithTop ℝ) = 5 := by
    rw [show (5 : ℝ) = sB.root2 rayA from rootB2.symm]
    apply Sphere.chosenRoot_eq_root2
    left
    rw [rootB1]
    exact WithTop.coe_le_coe.mpr (by norm_num)
  apply Sphere.hit_eq_none_of_not_inside
  rw [hch]
  intro ⟨hx, _⟩
  exact absurd (WithTop.coe_lt_coe.mp hx) (by norm_num)

lemma hitListAB :
    HitList.hit [sA, sB] rayA ((0.001 : ℝ) : WithTop ℝ) ⊤ = some (sA.recordAt rayA 1) := by
  simp only [HitList.hit, hitLoop, hitA, hitBAtOne, Sphere.recordAt_t]

/-- Witness for C4 at a two-sphere world: the aggregate returns the near
sphere's record (`t = 1`), the far sphere is also hit within the bounds (at
`t = 3`), and the returned `t` is no larger. -/
theorem hitList_hit_nearest_witness :
    HitList.hit [sA, sB] rayA ((0.001 : ℝ) : WithTop ℝ) ⊤ = some (sA.recordAt rayA 1) ∧
    Sphere.hit sB rayA ((0.001 : ℝ) : WithTop ℝ) ⊤ = some (sB.recordAt rayA 3) ∧
    (sA.recordAt rayA 1).t ≤ (sB.recordAt rayA 3).t := by
  refine ⟨hitListAB, hitBFull, ?_⟩
  exact ((hitList_hit_nearest [sA, sB] rayA _ ⊤).2 _ hitListAB).2 sB (by simp) _ hitBFull

/-- Witness for C6: on the demo sphere the discriminant is positive, the
smaller root lies strictly inside `(0.001, ∞)`, and `hit` returns the record
built at that root. -/
theorem sphere_hit_roots_witness :
    0 < sA.discriminant rayA ∧
    (((0.001 : ℝ) : WithTop ℝ) < ↑(sA.root1 rayA) ∧ (↑(sA.root1 rayA) : WithTop ℝ) < ⊤) ∧
    Sphere.hit sA rayA ((0.001 : ℝ) : WithTop ℝ) ⊤ = some (sA.recordAt rayA (sA.root1 rayA)) := by
  have hd : 0 < sA.discriminant rayA := by rw [discA]; norm_num
  have hin : (((0.001 : ℝ) : WithTop ℝ) < ↑(sA.root1 rayA) ∧
      (↑(sA.root1 rayA) : WithTop ℝ) < ⊤) := by
    rw [rootA1]
    exact ⟨WithTop.coe_lt_coe.mpr (by norm_num), WithTop.coe_lt_top 1⟩
  exact ⟨hd, hin, ((sphere_hit_roots sA rayA _ ⊤).2 hd).2.2.1 hin⟩

lemma Sphere.hit_none_of_disc_nonpos {s : Sphere} {ray : Ray} {t_min t_max : WithTop ℝ}
    (h : s.discriminant ray ≤ 0) : s.hit ray t_min t_max = none := by
  unfold Sphere.hit
  rw [if_neg (not_lt.mpr h)]

lemma colour_miss_eq {ray : Ray} {world : List Sphere} {depth : ℕ} {tape : ℕ → Vec3}
    (h0 : depth ≠ 0)
    (hmiss : HitList.hit world ray ((0.001 : ℝ) : WithTop ℝ) ⊤ = none) :
    Ray.colour ray world depth tape =
      (1 - 0.5 * (ray.direction.unit.y + 1)) * Vec3.mk 1 1 1 +
        (0.5 * (ray.direction.unit.y + 1)) * Vec3.mk 0.5 0.7 1.0 := by
  rw [Ray.colour, if_neg h0, hmiss]

lemma colour_of_hit_scatter {ray : Ray} {world : List Sphere} {depth : ℕ}
    {tape : ℕ → Vec3} {rec : HitRecord} {att : Vec3} {sc : Ray}
    (h0 : depth ≠ 0)
    (hh : HitList.hit world ray ((0.001 : ℝ) : WithTop ℝ) ⊤ = some rec)
    (hs : Material.scatter rec.material ray rec (tape 0) = some (att, sc)) :
    Ray.colour ray world depth tape =
      att * Ray.colour sc world (depth - 1) (fun n => tape (n + 1)) := by
  rw [Ray.colour, if_neg h0, hh]
  dsimp only
  rw [hs]

lemma unitUp : (Vec3.mk 0 1 0).unit = ⟨0, 1, 0⟩ := by
  simp only [Vec3.unit, Vec3.length, Vec3.length_squared]
  norm_num
  ext <;> norm_num

lemma unitDown : (Vec3.mk 0 (-1) 0).unit = ⟨0, -1, 0⟩ := by
  simp only [Vec3.unit, Vec3.length, Vec3.length_squared]
  norm_num
  ext <;> norm_num

/-- C9: a ray with non-zero direction and positive remaining depth that hits
nothing in the world evaluates to the background gradient
`(1-t)·(1,1,1) + t·(0.5,0.7,1.0)` with `t = 0.5·(unit_direction.y + 1)`,
with no material contribution. -/
theorem colour_miss_background (ray : Ray) (world : List Sphere) (depth : ℕ)
    (tape : ℕ → Vec3) (hd : ray.direction ≠ Vec3.ZERO) (h0 : depth ≠ 0)
    (hmiss : HitList.hit world ray ((0.001 : ℝ) : WithTop ℝ) ⊤ = none) :
    Ray.colour ray world depth tape =
      (1 - 0.5 * (ray.direction.unit.y + 1)) * Vec3.mk 1 1 1 +
        (0.5 * (ray.direction.unit.y + 1)) * Vec3.mk 0.5 0.7 1.0 :=
  colour_miss_eq h0 hmiss

/-- Witness for C9: the upward ray in the empty world misses everything and
returns exactly the zenith colour `(0.5, 0.7, 1.0)`. -/
theorem colour_miss_background_witness :
    rayUp.direction ≠ Vec3.ZERO ∧ (1 : ℕ) ≠ 0 ∧
    HitList.hit [] rayUp ((0.001 : ℝ) : WithTop ℝ) ⊤ = none ∧
    Ray.colour rayUp [] 1 tape0 = ⟨0.5, 0.7, 1.0⟩ := by
  have h1 : rayUp.direction ≠ Vec3.ZERO := by
    intro h
    have := congrArg Vec3.y h
    norm_num [rayUp, Vec3.ZERO] at this
  have h3 : HitList.hit [] rayUp ((0.001 : ℝ) : WithTop ℝ) ⊤ = none := by
    simp [HitList.hit, hitLoop]
  refine ⟨h1, by norm_num, h3, ?_⟩
  rw [colour_miss_background rayUp [] 1 tape0 h1 (by norm_num) h3]
  rw [show rayUp.direction = ⟨0, 1, 0⟩ from rfl, unitUp]
  ext <;> norm_num

lemma recAp : (sA.recordAt rayA 1).p = ⟨0, 0, -1⟩ := by
  rw [Sphere.recordAt, HitRecord.new_p]
  ext <;> norm_num [Ray.at, rayA, Vec3.ZERO]

lemma recAnormal : (sA.recordAt rayA 1).normal = ⟨0, 0, 1⟩ := by
  rw [Sphere.recordAt]
  show (if rayA.direction.dot ((rayA.at 1 - sA.center) / sA.radius) < 0
      then (rayA.at 1 - sA.center) / sA.radius
      else -((rayA.at 1 - sA.center) / sA.radius)) = ⟨0, 0, 1⟩
  rw [if_pos (by norm_num [Vec3.dot, Ray.at, rayA, sA, Vec3.ZERO])]
  ext <;> norm_num [Ray.at, rayA, sA, Vec3.ZERO]

lemma discUpNonpos : Sphere.discriminant sA ⟨⟨0, 0, -1⟩, ⟨0, 1, 0⟩⟩ ≤ 0 := by
  norm_num [sA, Sphere.discriminant, Sphere.half_b, Sphere.a, Sphere.c, Sphere.oc,
    Vec3.dot, Vec3.length_squared]

lemma discDownNonpos : Sphere.discriminant sA ⟨⟨0, 0, -1⟩, ⟨0, -1, 0⟩⟩ ≤ 0 := by
  norm_num [sA, Sphere.discriminant, Sphere.half_b, Sphere.a, Sphere.c, Sphere.oc,
    Vec3.dot, Vec3.length_squared]

lemma missUp : HitList.hit [sA] ⟨⟨0, 0, -1⟩, ⟨0, 1, 0⟩⟩ ((0.001 : ℝ) : WithTop ℝ) ⊤ = none := by
  simp only [HitList.hit, hitLoop, Sphere.hit_none_of_disc_nonpos discUpNonpos]

lemma missDown : HitList.hit [sA] ⟨⟨0, 0, -1⟩, ⟨0, -1, 0⟩⟩ ((0.001 : ℝ) : WithTop ℝ) ⊤ = none := by
  simp only [HitList.hit, hitLoop, Sphere.hit_none_of_disc_nonpos discDownNonpos]

/-- C10 (code bug): with the scene, settings and depth fixed, the rendered
colour still depends on the values drawn from the random source — here two
different tapes for the single Lambertian bounce give `(0.5, 0.7, 1.0)` versus
`(1, 1, 1)`.  In the source those draws come from `rand::thread_rng()` (an
OS-entropy-seeded generator, `random_double_in_range` in src/main.rs) and no
seed parameter exists anywhere, so the output is not a function of a fixable
seed as the claim requires. -/
theorem render_depends_on_rng :
    Ray.colour rayA [sA] 2 tape1 ≠ Ray.colour rayA [sA] 2 tape2 := by
  have hlist : HitList.hit [sA] rayA ((0.001 : ℝ) : WithTop ℝ) ⊤ = some (sA.recordAt rayA 1) := by
    simp only [HitList.hit, hitLoop, hitA]
  have hs1 : Material.scatter (sA.recordAt rayA 1).material rayA (sA.recordAt rayA 1) (tape1 0)
      = some (Vec3.UNIT, ⟨⟨0, 0, -1⟩, ⟨0, 1, 0⟩⟩) := by
    rw [show Material.scatter (sA.recordAt rayA 1).material rayA (sA.recordAt rayA 1) (tape1 0)
        = some (Vec3.UNIT, ⟨(sA.recordAt rayA 1).p, (sA.recordAt rayA 1).normal + tape1 0⟩)
      from rfl]
    rw [recAp, recAnormal]
    simp only [Option.some.injEq, Prod.mk.injEq, Ray.mk.injEq, tape1]
    refine ⟨trivial, trivial, ?_⟩
    ext <;> norm_num
  have hs2 : Material.scatter (sA.recordAt rayA 1).material rayA (sA.recordAt rayA 1) (tape2 0)
      = some (Vec3.UNIT, ⟨⟨0, 0, -1⟩, ⟨0, -1, 0⟩⟩) := by
    rw [show Material.scatter (sA.recordAt rayA 1).material rayA (sA.recordAt rayA 1) (tape2 0)
        = some (Vec3.UNIT, ⟨(sA.recordAt rayA 1).p, (sA.recordAt rayA 1).normal + tape2 0⟩)
      from rfl]
    rw [recAp, recAnormal]
    simp only [Option.some.injEq, Prod.mk.injEq, Ray.mk.injEq, tape2]
    refine ⟨trivial, trivial, ?_⟩
    ext <;> norm_num
  have hc1 := colour_of_hit_scatter (show (2 : ℕ) ≠ 0 by norm_num) hlist hs1
  have hc2 := colour_of_hit_scatter (show (2 : ℕ) ≠ 0 by norm_num) hlist hs2
  have hb1 := @colour_miss_eq ⟨⟨0, 0, -1⟩, ⟨0, 1, 0⟩⟩ [sA] (2 - 1)
    (fun n => tape1 (n + 1)) (by norm_num) missUp
  have hb2 := @colour_miss_eq ⟨⟨0, 0, -1⟩, ⟨0, -1, 0⟩⟩ [sA] (2 - 1)
    (fun n => tape2 (n + 1)) (by norm_num) missDown
  rw [hc1, hc2, hb1, hb2]
  dsimp only
  rw [unitUp, unitDown]
  intro heq
  have hx := congrArg Vec3.y heq
  simp only [Vec3.mul_y, Vec3.add_y, Vec3.smul_y] at hx
  norm_num [Vec3.UNIT] at hx
